import Mathlib

/-
Verification of the podcast recorder/feed builder in
src/record_radio_shows.py against its natural-language specification.

The script is embedded shallowly:
* filesystem effects become explicit state passing over a list of file
  records (path, byte size, modification time);
* external subprocess capabilities (ffprobe, ffmpeg, json) become function
  parameters bundled in environment structures;
* Python dicts become association lists in insertion order;
* the probed audio duration is modeled in whole seconds (a natural
  number); the script's ceiling arithmetic on it is modeled exactly.
-/

namespace RRS

/-- Configuration constant MP3_FOLDER from the script header. -/
def MP3_FOLDER : String := "episodes_mp3"

/-- Configuration constant RSS_FILE from the script header. -/
def RSS_FILE : String := "smear_campaign_feed.xml"

/-- Configuration constant TRACK_FILE from the script header. -/
def TRACK_FILE : String := "downloaded_episodes.json"

/-- Configuration constant HOST_NAME from the script header. -/
def HOST_NAME : String := "DJ Tone Deaf"

/-- Configuration constant CHANNEL_IMAGE from the script header. -/
def CHANNEL_IMAGE : String := "channel_image.jpg"

/-- Configuration constant CATEGORY from the script header. -/
def CATEGORY : String := "Music"

/-- Configuration constant LANG from the script header. -/
def LANG : String := "en-US"

/-- Configuration constant EXPLICIT from the script header. -/
def EXPLICIT : String := "no"

/-- Configuration constant BASE_URL from the script header. -/
def BASE_URL : String := "https://artiefissio.github.io/Podcast-feedS/"

/-- Configuration constant MAX_SIZE_BYTES (99 MB split threshold). -/
def MAX_SIZE_BYTES : Nat := 99 * 1024 * 1024

/-- One entry of the SHOWS schedule table: show name, weekday
(Python convention, Monday = 0 .. Sunday = 6), the list of hour blocks,
and the optional spinitron archive URL. -/
structure ShowSlot where
  name : String
  day : Nat
  hours : List Nat
  spinitron_archive : Option String
deriving DecidableEq

/-- The SHOWS schedule table from the script header. -/
def SHOWS : List ShowSlot :=
  [ ⟨"Wolfman Max – Wide World of Funk", 5, [17, 18], none⟩,
    ⟨"The Smear Campaign", 5, [19],
      some "https://spinitron.com/KTAL/show/277361/The-Smear-Campaign?layout=1"⟩,
    ⟨"Johnny Catalog – Catalog", 5, [20], none⟩,
    ⟨"Brain Salad", 5, [21], none⟩,
    ⟨"Lost Highway", 0, [20], none⟩,
    ⟨"Soul Salad", 6, [16], none⟩ ]

/-- One file on disk: its path, byte size, and modification time
(seconds since the epoch). -/
structure FSFile where
  path : String
  size : Nat
  mtime : Int
deriving DecidableEq

/-- The filesystem state: the list of existing files. -/
abbrev FS := List FSFile

/-- Model of os.path.exists. -/
def fs_exists (fs : FS) (p : String) : Bool :=
  fs.any (fun f => f.path == p)

/-- Model of os.path.getsize (0 when the file is absent; the script only
calls it on existing files or catches the resulting error). -/
def fs_getsize (fs : FS) (p : String) : Nat :=
  ((fs.find? (fun f => f.path == p)).map FSFile.size).getD 0

/-- Model of os.path.getmtime (0 when the file is absent). -/
def fs_getmtime (fs : FS) (p : String) : Int :=
  ((fs.find? (fun f => f.path == p)).map FSFile.mtime).getD 0

/-- Model of os.remove. -/
def fs_remove (fs : FS) (p : String) : FS :=
  fs.filter (fun f => f.path != p)

/-- Creation (or overwrite) of a file, as performed by ffmpeg with -y. -/
def fs_create (fs : FS) (f : FSFile) : FS :=
  f :: fs_remove fs f.path

/-- Model of Python str.replace on character lists: every occurrence of
the (nonempty) pattern is replaced, scanning left to right, and the
replacement text is not rescanned.  The extra Nat argument is fuel, a
Lean termination device; with fuel at least the length of the scanned
list and a nonempty pattern it never runs out. -/
def py_replace_core (pat repl : List Char) : Nat → List Char → List Char
  | 0, s => s
  | _ + 1, [] => []
  | fuel + 1, c :: cs =>
    if pat.isPrefixOf (c :: cs) then
      repl ++ py_replace_core pat repl fuel ((c :: cs).drop pat.length)
    else
      c :: py_replace_core pat repl fuel cs

/-- Model of Python str.replace on strings. -/
def py_replace (s pat repl : String) : String :=
  ⟨py_replace_core pat.data repl.data s.data.length s.data⟩

/-- Decimal digit characters of a positive number, most significant
first (empty for 0).  The first Nat argument is fuel; fuel at least n
suffices. -/
def natDigitsAux : Nat → Nat → List Char
  | 0, _ => []
  | fuel + 1, n =>
    if n = 0 then [] else natDigitsAux fuel (n / 10) ++ [Nat.digitChar (n % 10)]

/-- Decimal rendering of a natural number (Python str / %d). -/
def natRepr (n : Nat) : String :=
  if n = 0 then "0" else ⟨natDigitsAux n n⟩

/-- Model of the Python format spec %03d: decimal rendering left-padded
with zeros to a minimum width of three characters. -/
def pad3 (n : Nat) : String :=
  let s := natRepr n
  if s.length < 3 then ⟨List.replicate (3 - s.length) '0'⟩ ++ s else s

/-- Ceiling division on naturals, the value of math.ceil(a / b). -/
def ceil_div (a b : Nat) : Nat := (a + b - 1) / b

/-- External capabilities used by split_mp3: the ffprobe duration query
(None models a subprocess failure or unparseable output, whose float()
error the script catches), and the behavior of each ffmpeg extraction
call: whether it produces its output file, and the produced file's size
and modification time. -/
structure SplitEnv where
  probe : String → Option Nat
  ffmpeg_ok : String → Bool
  part_size : String → Nat
  part_mtime : String → Int

/-- One requested ffmpeg time-range extraction: input path, -ss start
second, -t length in seconds, output path. -/
structure FfmpegCut where
  input : String
  start : Nat
  len : Nat
  output : String
deriving DecidableEq

/-- The output filename of the (0-based) i-th part:
file_path.replace(".mp3", "_part" + format(i+1, "03d") + ".mp3"). -/
def part_name (file_path : String) (i : Nat) : String :=
  py_replace file_path ".mp3" ("_part" ++ pad3 (i + 1) ++ ".mp3")

/-- The file record ffmpeg leaves on disk for a produced part. -/
def mk_part_file (env : SplitEnv) (p : String) : FSFile :=
  ⟨p, env.part_size p, env.part_mtime p⟩

/-- One iteration of the splitting loop in split_mp3: issue the ffmpeg
extraction for part i, then append the part filename to the accumulator
exactly when the file now exists on disk. -/
def split_step (env : SplitEnv) (file_path : String) (segment_time : Nat)
    (st : FS × List String × List FfmpegCut) (i : Nat) :
    FS × List String × List FfmpegCut :=
  let part_filename := part_name file_path i
  let cut : FfmpegCut := ⟨file_path, i * segment_time, segment_time, part_filename⟩
  let fs1 :=
    if env.ffmpeg_ok part_filename then fs_create st.1 (mk_part_file env part_filename)
    else st.1
  let pf1 := if fs_exists fs1 part_filename then st.2.1 ++ [part_filename] else st.2.1
  (fs1, pf1, st.2.2 ++ [cut])

/-- The splitting loop of split_mp3 (for i in range(parts)). -/
def split_loop (env : SplitEnv) (fs : FS) (file_path : String)
    (parts segment_time : Nat) : FS × List String × List FfmpegCut :=
  (List.range parts).foldl (split_step env file_path segment_time) (fs, [], [])

/-- Model of split_mp3: returns the final filesystem, the returned list
of file paths, and the list of ffmpeg extraction requests issued. -/
def split_mp3 (env : SplitEnv) (fs : FS) (file_path : String) (max_size : Nat) :
    FS × List String × List FfmpegCut :=
  if fs_exists fs file_path = false then (fs, [], [])
  else
    let size_bytes := fs_getsize fs file_path
    if size_bytes ≤ max_size then (fs, [file_path], [])
    else
      match env.probe file_path with
      | none => (fs, [file_path], [])
      | some duration_sec =>
        let parts := ceil_div size_bytes max_size
        let segment_time := ceil_div duration_sec parts
        let r := split_loop env fs file_path parts segment_time
        if r.2.1.isEmpty then (r.1, [file_path], r.2.2)
        else (fs_remove r.1 file_path, r.2.1, r.2.2)

/-- Creating a file makes it exist. -/
theorem fs_exists_create_self (fs : FS) (p : String) (a : Nat) (b : Int) :
    fs_exists (fs_create fs ⟨p, a, b⟩) p = true := by
  simp [fs_create, fs_exists]

/-- Removing a file makes it no longer exist. -/
theorem fs_exists_remove_self (fs : FS) (p : String) :
    fs_exists (fs_remove fs p) p = false := by
  simp only [fs_remove, fs_exists]
  rw [List.any_eq_false]
  intro f hf
  have := (List.mem_filter.mp hf).2
  simp only [bne_iff_ne, ne_eq] at this
  simpa using this

/-- One split iteration only ever appends to the part-file accumulator. -/
theorem split_step_part_files (env : SplitEnv) (fp : String) (segt : Nat)
    (st : FS × List String × List FfmpegCut) (i : Nat) :
    ∃ e, (split_step env fp segt st i).2.1 = st.2.1 ++ e := by
  unfold split_step
  dsimp only
  split <;> split <;>
    first
      | exact ⟨[part_name fp i], rfl⟩
      | exact ⟨[], by simp⟩

/-- The split loop only ever appends to the part-file accumulator. -/
theorem split_foldl_part_files (env : SplitEnv) (fp : String) (segt : Nat)
    (l : List Nat) (st : FS × List String × List FfmpegCut) :
    ∃ e, (l.foldl (split_step env fp segt) st).2.1 = st.2.1 ++ e := by
  induction l generalizing st with
  | nil => exact ⟨[], by simp⟩
  | cons i is ih =>
    obtain ⟨e1, h1⟩ := split_step_part_files env fp segt st i
    obtain ⟨e2, h2⟩ := ih (split_step env fp segt st i)
    exact ⟨e1 ++ e2, by simp [h2, h1, List.append_assoc]⟩

/-- If the first ffmpeg extraction produces its file, the split loop
collects at least that part. -/
theorem split_loop_ne_nil (env : SplitEnv) (fs : FS) (fp : String)
    (parts segt : Nat) (hp : 0 < parts)
    (hok : env.ffmpeg_ok (part_name fp 0) = true) :
    (split_loop env fs fp parts segt).2.1 ≠ [] := by
  obtain ⟨k, rfl⟩ : ∃ k, parts = k + 1 := ⟨parts - 1, by omega⟩
  unfold split_loop
  rw [List.range_succ_eq_map, List.foldl_cons]
  have hstep : (split_step env fp segt (fs, [], []) 0).2.1 = [part_name fp 0] := by
    simp [split_step, mk_part_file, hok, fs_exists_create_self]
  obtain ⟨e, he⟩ := split_foldl_part_files env fp segt
    ((List.range k).map Nat.succ) (split_step env fp segt (fs, [], []) 0)
  rw [he, hstep]
  simp

/-- Positivity of ceiling division. -/
theorem ceil_div_pos (a b : Nat) (hb : 0 < b) (ha : 0 < a) : 0 < ceil_div a b := by
  unfold ceil_div
  have h : b ≤ a + b - 1 := by omega
  simpa using (Nat.one_le_div_iff hb).mpr h

/-- Amended C1: split_mp3 never fails the whole operation.  When the
duration probe fails it falls back to returning the single-element list
holding the original path with the filesystem unchanged; when the probe
succeeds and at least the first ffmpeg extraction produces its part
file, the original file is deleted and a nonempty part list is returned
even if fewer than partsCount parts were produced. -/
theorem split_mp3_failure_fallback (env : SplitEnv) (fs : FS) (p : String)
    (max_size : Nat) (hex : fs_exists fs p = true) (hmax : 0 < max_size)
    (hsz : max_size < fs_getsize fs p) :
    (env.probe p = none → split_mp3 env fs p max_size = (fs, [p], [])) ∧
    (∀ d, env.probe p = some d → env.ffmpeg_ok (part_name p 0) = true →
      fs_exists (split_mp3 env fs p max_size).1 p = false ∧
      (split_mp3 env fs p max_size).2.1 ≠ []) := by
  constructor
  · intro hprobe
    simp [split_mp3, hex, hsz.not_le, hprobe]
  · intro d hprobe hok
    have hparts : 0 < ceil_div (fs_getsize fs p) max_size :=
      ceil_div_pos _ _ hmax (by omega)
    have hne := split_loop_ne_nil env fs p (ceil_div (fs_getsize fs p) max_size)
      (ceil_div d (ceil_div (fs_getsize fs p) max_size)) hparts hok
    have hemp : (split_loop env fs p (ceil_div (fs_getsize fs p) max_size)
        (ceil_div d (ceil_div (fs_getsize fs p) max_size))).2.1.isEmpty = false := by
      cases h : (split_loop env fs p (ceil_div (fs_getsize fs p) max_size)
          (ceil_div d (ceil_div (fs_getsize fs p) max_size))).2.1 with
      | nil => exact absurd h hne
      | cons x xs => simp [List.isEmpty]
    constructor
    · simp [split_mp3, hex, hsz.not_le, hprobe, hemp, fs_exists_remove_self]
    · simp only [split_mp3, hex, hsz.not_le, hprobe, hemp]
      simpa [hex, hsz.not_le, hemp] using hne

/-- Witness for the amended C1: concrete probe failure falls back to the
original single-element list with the filesystem unchanged. -/
theorem split_mp3_failure_fallback_witness :
    split_mp3 ⟨fun _ => none, fun _ => true, fun _ => 1, fun _ => 0⟩
      [⟨"a.mp3", 3, 0⟩] "a.mp3" 1 = ([⟨"a.mp3", 3, 0⟩], ["a.mp3"], []) :=
  (split_mp3_failure_fallback ⟨fun _ => none, fun _ => true, fun _ => 1, fun _ => 0⟩
    [⟨"a.mp3", 3, 0⟩] "a.mp3" 1 (by decide) (by decide) (by decide)).1 rfl

/-- Counterexample to C1 as stated: a 3-byte file with a 1-byte limit
expects 3 parts, ffmpeg produces only the first part, yet split_mp3
returns the 1-element part list (not an error) and deletes the
original file. -/
theorem split_mp3_partial_counterexample :
    ceil_div (fs_getsize [(⟨"a.mp3", 3, 0⟩ : FSFile)] "a.mp3") 1 = 3 ∧
    (split_mp3 ⟨fun _ => some 3, fun s => s == "a_part001.mp3", fun _ => 1, fun _ => 0⟩
      [⟨"a.mp3", 3, 0⟩] "a.mp3" 1).2.1 = ["a_part001.mp3"] ∧
    fs_exists (split_mp3 ⟨fun _ => some 3, fun s => s == "a_part001.mp3", fun _ => 1, fun _ => 0⟩
      [⟨"a.mp3", 3, 0⟩] "a.mp3" 1).1 "a.mp3" = false := by
  decide

/-- C10: applied to a path at which no file exists, split_mp3 returns the
empty list of parts (neither an error fallback nor a single-part list)
and leaves the filesystem unchanged. -/
theorem split_mp3_missing_file (env : SplitEnv) (fs : FS) (p : String)
    (max_size : Nat) (h : fs_exists fs p = false) :
    split_mp3 env fs p max_size = (fs, [], []) := by
  simp [split_mp3, h]

/-- Witness for C10: a concrete empty filesystem and a concrete path. -/
theorem split_mp3_missing_file_witness :
    split_mp3 ⟨fun _ => none, fun _ => false, fun _ => 0, fun _ => 0⟩ [] "a.mp3" 1
      = ([], [], []) :=
  split_mp3_missing_file ⟨fun _ => none, fun _ => false, fun _ => 0, fun _ => 0⟩
    [] "a.mp3" 1 (by decide)

/-- py_replace_core maps the empty list to itself for any fuel. -/
theorem py_replace_core_nil (pat repl : List Char) (fuel : Nat) :
    py_replace_core pat repl fuel [] = [] := by
  cases fuel <;> rfl

/-- A list is a Boolean prefix of itself followed by anything. -/
theorem isPrefixOf_append_self (l t : List Char) : l.isPrefixOf (l ++ t) = true := by
  induction l with
  | nil => simp [List.isPrefixOf]
  | cons c cs ih => simp [List.isPrefixOf, ih]

/-- Replacing the pattern in a string that ends with the pattern and
contains no other occurrence of it yields the prefix followed by the
replacement. -/
theorem py_replace_core_suffix (pat repl : List Char) (hpat : pat ≠ []) :
    ∀ (pre : List Char),
      (∀ i < pre.length, pat.isPrefixOf ((pre ++ pat).drop i) = false) →
      ∀ fuel, (pre ++ pat).length ≤ fuel →
        py_replace_core pat repl fuel (pre ++ pat) = pre ++ repl := by
  intro pre
  induction pre with
  | nil =>
    intro _ fuel hfuel
    simp only [List.nil_append] at *
    obtain ⟨c, cs, rfl⟩ : ∃ c cs, pat = c :: cs := by
      cases pat with
      | nil => exact absurd rfl hpat
      | cons c cs => exact ⟨c, cs, rfl⟩
    obtain ⟨f, rfl⟩ : ∃ f, fuel = f + 1 := ⟨fuel - 1, by simp at hfuel; omega⟩
    simp only [py_replace_core]
    rw [if_pos (by simp)]
    rw [List.drop_length, py_replace_core_nil, List.append_nil]
  | cons c pre' ih =>
    intro hno fuel hfuel
    obtain ⟨f, rfl⟩ : ∃ f, fuel = f + 1 := ⟨fuel - 1, by simp at hfuel; omega⟩
    have h0 : pat.isPrefixOf (c :: (pre' ++ pat)) = false := by
      simpa using hno 0 (by simp)
    rw [List.cons_append]
    simp only [py_replace_core]
    rw [if_neg (by simp [h0])]
    have hno' : ∀ i < pre'.length, pat.isPrefixOf ((pre' ++ pat).drop i) = false := by
      intro i hi
      simpa [List.cons_append] using hno (i + 1) (by simpa using Nat.succ_lt_succ hi)
    rw [ih hno' f (by simp at hfuel ⊢; omega), List.cons_append]

/-- String-level form: if a path is a prefix followed by ".mp3" and the
pattern ".mp3" occurs nowhere inside the prefix part, Python's replace
substitutes exactly the final ".mp3". -/
theorem py_replace_mp3 (pre repl : String)
    (hno : ∀ i < pre.length,
      (".mp3".data.isPrefixOf ((pre.data ++ ".mp3".data).drop i)) = false) :
    py_replace (pre ++ ".mp3") ".mp3" repl = pre ++ repl := by
  apply String.ext
  show py_replace_core _ _ _ _ = _
  rw [String.data_append, String.data_append]
  exact py_replace_core_suffix ".mp3".data repl.data (by decide) pre.data hno
    (pre.data ++ ".mp3".data).length le_rfl

/-- Numeric value of a decimal digit character. -/
def charVal (c : Char) : Nat := c.toNat - 48

/-- Value of a digit list, most significant first. -/
def digitsVal (l : List Char) : Nat :=
  l.foldl (fun acc c => 10 * acc + charVal c) 0

/-- charVal inverts Nat.digitChar on single digits. -/
theorem charVal_digitChar (d : Nat) (h : d < 10) :
    charVal (Nat.digitChar d) = d := by
  interval_cases d <;> rfl

/-- digitsVal of an appended final digit. -/
theorem digitsVal_append (l : List Char) (c : Char) :
    digitsVal (l ++ [c]) = 10 * digitsVal l + charVal c := by
  simp [digitsVal, List.foldl_append]

/-- natDigitsAux with zero value is empty. -/
theorem natDigitsAux_zero (fuel : Nat) : natDigitsAux fuel 0 = [] := by
  cases fuel <;> rfl

/-- digitsVal inverts natDigitsAux whenever the fuel suffices. -/
theorem digitsVal_natDigitsAux (fuel : Nat) :
    ∀ n, n ≤ fuel → digitsVal (natDigitsAux fuel n) = n := by
  induction fuel with
  | zero =>
    intro n hn
    have : n = 0 := by omega
    subst this
    rfl
  | succ f ih =>
    intro n hn
    by_cases h : n = 0
    · subst h; rfl
    · have hlt : n / 10 ≤ f := by
        have := Nat.div_lt_self (by omega : 0 < n) (by omega : 1 < 10)
        omega
      simp only [natDigitsAux, if_neg h]
      rw [digitsVal_append, ih (n / 10) hlt, charVal_digitChar (n % 10) (by omega)]
      omega

/-- The leading digit character of a positive number is not '0'. -/
theorem natDigitsAux_head (fuel : Nat) :
    ∀ n, 1 ≤ n → n ≤ fuel →
      ∃ c cs, natDigitsAux fuel n = c :: cs ∧ (c == '0') = false := by
  induction fuel with
  | zero => intro n h1 h2; omega
  | succ f ih =>
    intro n h1 _
    simp only [natDigitsAux, if_neg (by omega : ¬ n = 0)]
    by_cases h10 : n < 10
    · rw [Nat.div_eq_of_lt h10, natDigitsAux_zero]
      refine ⟨Nat.digitChar (n % 10), [], by simp, ?_⟩
      rw [Nat.mod_eq_of_lt h10]
      interval_cases n <;> decide
    · have hd1 : 1 ≤ n / 10 := by
        rw [Nat.le_div_iff_mul_le (by omega)]; omega
      have hd2 : n / 10 ≤ f := by
        have := Nat.div_lt_self (by omega : 0 < n) (by omega : 1 < 10)
        omega
      obtain ⟨c, cs, hcs, hc⟩ := ih (n / 10) hd1 hd2
      exact ⟨c, cs ++ [Nat.digitChar (n % 10)], by rw [hcs]; simp, hc⟩

/-- Dropping leading zeros of a zero-padded digit string recovers the
digit string, provided its leading character is not '0'. -/
theorem dropWhile_pad (k : Nat) (c : Char) (cs : List Char) (h : (c == '0') = false) :
    (List.replicate k '0' ++ c :: cs).dropWhile (fun x => x == '0') = c :: cs := by
  induction k with
  | zero => simp [List.dropWhile_cons, h]
  | succ k ih => simpa [List.replicate_succ, List.dropWhile_cons] using ih

/-- Data of pad3 on a positive number: zero padding followed by the raw
decimal digits. -/
theorem pad3_data (n : Nat) (h : 1 ≤ n) :
    (pad3 n).data
      = List.replicate (3 - (natDigitsAux n n).length) '0' ++ natDigitsAux n n := by
  unfold pad3 natRepr
  rw [if_neg (by omega : ¬ n = 0)]
  dsimp only
  split
  · rw [String.data_append]
    simp [String.length]
  · rename_i hlen
    have : 3 - (natDigitsAux n n).length = 0 := by
      simp only [String.length] at hlen
      omega
    rw [this]
    simp

/-- pad3 is injective on positive numbers. -/
theorem pad3_inj (m n : Nat) (hm : 1 ≤ m) (hn : 1 ≤ n) (h : pad3 m = pad3 n) :
    m = n := by
  have hd : (pad3 m).data = (pad3 n).data := by rw [h]
  rw [pad3_data m hm, pad3_data n hn] at hd
  obtain ⟨c1, cs1, hcs1, hc1⟩ := natDigitsAux_head m m hm le_rfl
  obtain ⟨c2, cs2, hcs2, hc2⟩ := natDigitsAux_head n n hn le_rfl
  have hstrip : natDigitsAux m m = natDigitsAux n n := by
    have := congrArg (List.dropWhile (fun x => x == '0')) hd
    rw [hcs1, hcs2, dropWhile_pad _ _ _ hc1, dropWhile_pad _ _ _ hc2] at this
    rw [hcs1, hcs2, this]
  have := congrArg digitsVal hstrip
  rwa [digitsVal_natDigitsAux m m le_rfl, digitsVal_natDigitsAux n n le_rfl] at this

/-- fs_exists on a cons cell. -/
theorem fs_exists_cons (f : FSFile) (fs : FS) (q : String) :
    fs_exists (f :: fs) q = ((f.path == q) || fs_exists fs q) := by
  simp [fs_exists]

/-- Removing one path does not affect existence of another path. -/
theorem fs_exists_remove_ne (fs : FS) (p q : String) (h : q ≠ p) :
    fs_exists (fs_remove fs p) q = fs_exists fs q := by
  induction fs with
  | nil => rfl
  | cons f fsi ih =>
    by_cases hp : f.path = p
    · have hrm : fs_remove (f :: fsi) p = fs_remove fsi p := by
        simp [fs_remove, List.filter_cons, hp]
      have hfq : (f.path == q) = false := by
        rw [hp]
        exact beq_eq_false_iff_ne.mpr fun e => h e.symm
      rw [hrm, ih, fs_exists_cons, hfq, Bool.false_or]
    · have hrm : fs_remove (f :: fsi) p = f :: fs_remove fsi p := by
        simp [fs_remove, List.filter_cons, hp]
      rw [hrm, fs_exists_cons, fs_exists_cons, ih]

/-- Existence after a create: the created path or anything alive before. -/
theorem fs_exists_create_iff (fs : FS) (f : FSFile) (q : String) :
    fs_exists (fs_create fs f) q = true ↔ q = f.path ∨ fs_exists fs q = true := by
  by_cases h : q = f.path
  · subst h
    simp [fs_create, fs_exists_cons]
  · have hfq : (f.path == q) = false := beq_eq_false_iff_ne.mpr fun e => h e.symm
    rw [fs_create, fs_exists_cons, fs_exists_remove_ne fs f.path q h, hfq,
      Bool.false_or]
    simp [h]

/-- Existence after the whole sequence of part creations. -/
theorem fs_exists_foldl_create (env : SplitEnv) (fp : String) (l : List Nat)
    (fs : FS) (q : String) :
    fs_exists (l.foldl (fun a i => fs_create a (mk_part_file env (part_name fp i))) fs) q
        = true
      ↔ (∃ i ∈ l, part_name fp i = q) ∨ fs_exists fs q = true := by
  induction l generalizing fs with
  | nil => simp
  | cons i is ih =>
    rw [List.foldl_cons, ih, fs_exists_create_iff]
    simp only [mk_part_file, List.mem_cons]
    constructor
    · rintro (⟨j, hj, hjq⟩ | h | h)
      · exact Or.inl ⟨j, Or.inr hj, hjq⟩
      · exact Or.inl ⟨i, Or.inl rfl, h.symm⟩
      · exact Or.inr h
    · rintro (⟨j, rfl | hj, hjq⟩ | h)
      · exact Or.inr (Or.inl hjq.symm)
      · exact Or.inl ⟨j, hj, hjq⟩
      · exact Or.inr (Or.inr h)

/-- When every ffmpeg extraction produces its file, the split loop
creates every part file, collects every part name in index order, and
issues the extraction commands in index order. -/
theorem split_loop_all_ok (env : SplitEnv) (fs : FS) (fp : String)
    (parts segt : Nat)
    (hok : ∀ i < parts, env.ffmpeg_ok (part_name fp i) = true) :
    split_loop env fs fp parts segt =
      ((List.range parts).foldl (fun a i => fs_create a (mk_part_file env (part_name fp i))) fs,
       (List.range parts).map (part_name fp),
       (List.range parts).map
         (fun i => (⟨fp, i * segt, segt, part_name fp i⟩ : FfmpegCut))) := by
  induction parts with
  | zero => rfl
  | succ k ih =>
    have hok' : ∀ i < k, env.ffmpeg_ok (part_name fp i) = true :=
      fun i hi => hok i (by omega)
    unfold split_loop at ih ⊢
    rw [List.range_succ, List.foldl_append, ih hok', List.foldl_cons, List.foldl_nil]
    simp [split_step, mk_part_file, hok k (by omega), fs_exists_create_self]

/-- Digit-count bound for natDigitsAux. -/
theorem natDigitsAux_length_le (fuel : Nat) :
    ∀ n k, n < 10 ^ k → n ≤ fuel → (natDigitsAux fuel n).length ≤ k := by
  induction fuel with
  | zero =>
    intro n k _ h2
    have : n = 0 := by omega
    subst this
    simp [natDigitsAux]
  | succ f ih =>
    intro n k hk hf
    by_cases h : n = 0
    · subst h
      simp [natDigitsAux]
    · obtain ⟨k1, rfl⟩ : ∃ k1, k = k1 + 1 := by
        cases k with
        | zero => simp at hk; omega
        | succ k1 => exact ⟨k1, rfl⟩
      simp only [natDigitsAux, if_neg h, List.length_append, List.length_cons,
        List.length_nil]
      have hdiv : n / 10 < 10 ^ k1 := by
        rw [Nat.div_lt_iff_lt_mul (by omega : 0 < 10)]
        calc n < 10 ^ (k1 + 1) := hk
          _ = 10 ^ k1 * 10 := by ring
      have hfl : n / 10 ≤ f := by
        have := Nat.div_lt_self (by omega : 0 < n) (by omega : 1 < 10)
        omega
      have := ih (n / 10) k1 hdiv hfl
      omega

/-- pad3 renders numbers up to 999 in exactly three characters. -/
theorem pad3_length (n : Nat) (h1 : 1 ≤ n) (h2 : n ≤ 999) :
    (pad3 n).length = 3 := by
  have hlen : (natDigitsAux n n).length ≤ 3 :=
    natDigitsAux_length_le n n 3 (by omega) le_rfl
  unfold pad3 natRepr
  rw [if_neg (by omega : ¬ n = 0)]
  dsimp only
  split
  · rename_i hlt
    rw [String.length_append]
    simp only [String.length] at hlt ⊢
    simp
    omega
  · rename_i hge
    simp only [String.length] at hge ⊢
    omega

/-- The generated part names for one source file are pairwise distinct. -/
theorem part_names_nodup (pre : String)
    (hno : ∀ i < pre.length,
      (".mp3".data.isPrefixOf ((pre.data ++ ".mp3".data).drop i)) = false)
    (parts : Nat) :
    ((List.range parts).map (part_name (pre ++ ".mp3"))).Nodup := by
  refine List.Nodup.map_on ?_ (List.nodup_range parts)
  intro i _ j _ hij
  rw [part_name, part_name, py_replace_mp3 pre _ hno, py_replace_mp3 pre _ hno] at hij
  have hd := congrArg String.data hij
  simp only [String.data_append, List.append_assoc] at hd
  have h1 := List.append_cancel_left hd
  have h2 := List.append_cancel_left h1
  have h3 := List.append_cancel_right h2
  have hpad : pad3 (i + 1) = pad3 (j + 1) := String.ext h3
  have := pad3_inj (i + 1) (j + 1) (by omega) (by omega) hpad
  omega

/-- A generated part name is never the original path. -/
theorem part_name_ne_orig (pre : String)
    (hno : ∀ i < pre.length,
      (".mp3".data.isPrefixOf ((pre.data ++ ".mp3".data).drop i)) = false)
    (i : Nat) : part_name (pre ++ ".mp3") i ≠ pre ++ ".mp3" := by
  rw [part_name, py_replace_mp3 pre _ hno]
  intro h
  have hl := congrArg String.length h
  simp only [String.length_append] at hl
  have h5 : ("_part" : String).length = 5 := rfl
  have h4 : (".mp3" : String).length = 4 := rfl
  omega

/-- A nonempty list is not isEmpty. -/
theorem ne_nil_isEmpty_false (l : List String) (h : l ≠ []) : l.isEmpty = false := by
  cases l with
  | nil => exact absurd rfl h
  | cons a t => rfl

/-- C4: on an oversized mp3 file (whose name contains ".mp3" only as its
final suffix) with a successful duration probe and every ffmpeg
extraction producing its file, split_mp3 returns exactly
partsCount = ceil(size / maxSizeBytes) parts in index order, named with
the 1-based zero-padded _partNNN suffix (exactly three digits whenever
partsCount is at most 999), pairwise distinct, extracted from the time
ranges starting at i * ceil(duration / partsCount); afterwards the
original file is removed and exactly the part files were added, all
other files being untouched. -/
theorem split_mp3_success (env : SplitEnv) (fs : FS) (pre : String)
    (max_size d : Nat)
    (hmax : 0 < max_size)
    (hex : fs_exists fs (pre ++ ".mp3") = true)
    (hsz : max_size < fs_getsize fs (pre ++ ".mp3"))
    (hprobe : env.probe (pre ++ ".mp3") = some d)
    (hno : ∀ i < pre.length,
      (".mp3".data.isPrefixOf ((pre.data ++ ".mp3".data).drop i)) = false)
    (hok : ∀ i < ceil_div (fs_getsize fs (pre ++ ".mp3")) max_size,
      env.ffmpeg_ok (part_name (pre ++ ".mp3") i) = true) :
    (split_mp3 env fs (pre ++ ".mp3") max_size).2.1
        = (List.range (ceil_div (fs_getsize fs (pre ++ ".mp3")) max_size)).map
            (part_name (pre ++ ".mp3"))
    ∧ (split_mp3 env fs (pre ++ ".mp3") max_size).2.1.length
        = ceil_div (fs_getsize fs (pre ++ ".mp3")) max_size
    ∧ (∀ i, part_name (pre ++ ".mp3") i = pre ++ "_part" ++ pad3 (i + 1) ++ ".mp3")
    ∧ (split_mp3 env fs (pre ++ ".mp3") max_size).2.1.Nodup
    ∧ (ceil_div (fs_getsize fs (pre ++ ".mp3")) max_size ≤ 999 →
        ∀ i < ceil_div (fs_getsize fs (pre ++ ".mp3")) max_size,
          (pad3 (i + 1)).length = 3)
    ∧ (split_mp3 env fs (pre ++ ".mp3") max_size).2.2
        = (List.range (ceil_div (fs_getsize fs (pre ++ ".mp3")) max_size)).map
            (fun i => (⟨pre ++ ".mp3",
                i * ceil_div d (ceil_div (fs_getsize fs (pre ++ ".mp3")) max_size),
                ceil_div d (ceil_div (fs_getsize fs (pre ++ ".mp3")) max_size),
                part_name (pre ++ ".mp3") i⟩ : FfmpegCut))
    ∧ fs_exists (split_mp3 env fs (pre ++ ".mp3") max_size).1 (pre ++ ".mp3") = false
    ∧ (∀ q, fs_exists (split_mp3 env fs (pre ++ ".mp3") max_size).1 q = true ↔
        ((∃ i < ceil_div (fs_getsize fs (pre ++ ".mp3")) max_size,
            part_name (pre ++ ".mp3") i = q)
          ∨ (fs_exists fs q = true ∧ q ≠ pre ++ ".mp3"))) := by
  have hparts_pos : 0 < ceil_div (fs_getsize fs (pre ++ ".mp3")) max_size :=
    ceil_div_pos _ _ hmax (by omega)
  have hloop := split_loop_all_ok env fs (pre ++ ".mp3")
    (ceil_div (fs_getsize fs (pre ++ ".mp3")) max_size)
    (ceil_div d (ceil_div (fs_getsize fs (pre ++ ".mp3")) max_size)) hok
  have hmapne : (List.range (ceil_div (fs_getsize fs (pre ++ ".mp3")) max_size)).map
      (part_name (pre ++ ".mp3")) ≠ [] := by
    intro hc
    have := congrArg List.length hc
    simp only [List.length_map, List.length_range, List.length_nil] at this
    omega
  have hie := ne_nil_isEmpty_false _ hmapne
  have hsplit : split_mp3 env fs (pre ++ ".mp3") max_size
      = (fs_remove
          ((List.range (ceil_div (fs_getsize fs (pre ++ ".mp3")) max_size)).foldl
            (fun a i => fs_create a (mk_part_file env (part_name (pre ++ ".mp3") i))) fs)
          (pre ++ ".mp3"),
         (List.range (ceil_div (fs_getsize fs (pre ++ ".mp3")) max_size)).map
           (part_name (pre ++ ".mp3")),
         (List.range (ceil_div (fs_getsize fs (pre ++ ".mp3")) max_size)).map
           (fun i => (⟨pre ++ ".mp3",
               i * ceil_div d (ceil_div (fs_getsize fs (pre ++ ".mp3")) max_size),
               ceil_div d (ceil_div (fs_getsize fs (pre ++ ".mp3")) max_size),
               part_name (pre ++ ".mp3") i⟩ : FfmpegCut))) := by
    simp [split_mp3, hex, hsz.not_le, hprobe, hloop, hie]
  refine ⟨by rw [hsplit], ?_, ?_, ?_, ?_, by rw [hsplit], by
    rw [hsplit]; exact fs_exists_remove_self _ _, ?_⟩
  · rw [hsplit]
    simp
  · intro i
    simp [part_name, py_replace_mp3 pre _ hno, String.append_assoc]
  · rw [hsplit]
    exact part_names_nodup pre hno _
  · intro h999 i hi
    exact pad3_length (i + 1) (by omega) (by omega)
  · intro q
    rw [hsplit]
    by_cases hq : q = pre ++ ".mp3"
    · subst hq
      rw [fs_exists_remove_self]
      simp only [Bool.false_eq_true, false_iff]
      rintro (⟨i, _, hne⟩ | ⟨_, hne⟩)
      · exact part_name_ne_orig pre hno i hne
      · exact hne rfl
    · rw [fs_exists_remove_ne _ _ _ hq, fs_exists_foldl_create]
      simp only [List.mem_range]
      constructor
      · rintro (⟨i, hi, hiq⟩ | h)
        · exact Or.inl ⟨i, hi, hiq⟩
        · exact Or.inr ⟨h, hq⟩
      · rintro (⟨i, hi, hiq⟩ | ⟨h, _⟩)
        · exact Or.inl ⟨i, hi, hiq⟩
        · exact Or.inr h

/-- Witness for C4: a 3-byte mp3 with a 1-byte limit and a 3-second
duration splits into the three expected part files. -/
theorem split_mp3_success_witness :
    (split_mp3 ⟨fun _ => some 3, fun _ => true, fun _ => 1, fun _ => 0⟩
      [⟨"a.mp3", 3, 0⟩] ("a" ++ ".mp3") 1).2.1
      = ["a_part001.mp3", "a_part002.mp3", "a_part003.mp3"] := by
  rw [(split_mp3_success ⟨fun _ => some 3, fun _ => true, fun _ => 1, fun _ => 0⟩
    [⟨"a.mp3", 3, 0⟩] "a" 1 3 (by decide) (by decide) (by decide) rfl (by decide)
    (fun _ _ => rfl)).1]
  decide

/-- One catalog entry, the value stored under an episode key in
downloaded_episodes.json.  Fields read with dict.get(...) in the script
are Options here; the script's defaults are applied at the use sites,
exactly as the script does. -/
structure Episode where
  mp3_files : List String
  title : String
  pubDate_iso : Option String
  description_html : Option String
  episode_image : Option String
  author : Option String
deriving DecidableEq

/-- The downloaded-episodes catalog: a Python dict modeled as an
association list in insertion order. -/
abbrev Catalog := List (String × Episode)

/-- Model of the Python dict assignment downloaded[ep_key] = episode:
if the key is present its value is replaced in place (the entry keeps
its position), otherwise the pair is appended. -/
def dict_set (cat : Catalog) (k : String) (v : Episode) : Catalog :=
  if cat.any (fun kv => kv.1 == k) then
    cat.map (fun kv => if kv.1 == k then (k, v) else kv)
  else cat ++ [(k, v)]

/-- Model of the Python dict lookup downloaded[key]. -/
def dict_lookup (cat : Catalog) (k : String) : Option Episode :=
  (cat.find? (fun kv => kv.1 == k)).map Prod.snd

/-- Looking up the assigned key after an in-place overwrite map finds
the new value. -/
theorem dict_lookup_map_set (cat : Catalog) (k : String) (v : Episode) :
    cat.any (fun kv => kv.1 == k) = true →
    dict_lookup (cat.map (fun kv => if kv.1 == k then (k, v) else kv)) k = some v := by
  induction cat with
  | nil => intro h; simp at h
  | cons hd t ih =>
    intro hmem
    simp only [List.map_cons]
    by_cases hhd : hd.1 = k
    · have h1 : (hd.1 == k) = true := beq_iff_eq.mpr hhd
      rw [if_pos h1]
      unfold dict_lookup
      rw [List.find?_cons_of_pos _ (by simp)]
      rfl
    · have h1 : (hd.1 == k) = false := beq_eq_false_iff_ne.mpr hhd
      rw [if_neg (by simp [h1])]
      unfold dict_lookup
      rw [List.find?_cons_of_neg _ (by simp [h1])]
      have hmem' : t.any (fun kv => kv.1 == k) = true := by
        simpa [List.any_cons, h1] using hmem
      exact ih hmem'

/-- The in-place overwrite map preserves the key sequence. -/
theorem dict_set_keys_map (cat : Catalog) (k : String) (v : Episode) :
    (cat.map (fun kv => if kv.1 == k then (k, v) else kv)).map Prod.fst
      = cat.map Prod.fst := by
  induction cat with
  | nil => rfl
  | cons hd t ih =>
    simp only [List.map_cons, ih]
    by_cases hhd : hd.1 = k
    · simp [beq_iff_eq.mpr hhd, hhd]
    · simp [beq_eq_false_iff_ne.mpr hhd]

/-- The in-place overwrite map leaves every other key's entry alone. -/
theorem dict_lookup_map_other (cat : Catalog) (k : String) (v : Episode)
    (k2 : String) (hk2 : k2 ≠ k) :
    dict_lookup (cat.map (fun kv => if kv.1 == k then (k, v) else kv)) k2
      = dict_lookup cat k2 := by
  induction cat with
  | nil => rfl
  | cons hd t ih =>
    simp only [List.map_cons]
    by_cases hhd : hd.1 = k
    · have h1 : (hd.1 == k) = true := beq_iff_eq.mpr hhd
      have h2 : (k == k2) = false := beq_eq_false_iff_ne.mpr fun e => hk2 e.symm
      have h3 : (hd.1 == k2) = false := by rw [hhd]; exact h2
      rw [if_pos h1]
      unfold dict_lookup
      rw [List.find?_cons_of_neg _ (by simp [h2]),
        List.find?_cons_of_neg _ (by simp [h3])]
      exact ih
    · have h1 : (hd.1 == k) = false := beq_eq_false_iff_ne.mpr hhd
      rw [if_neg (by simp [h1])]
      by_cases hq : hd.1 = k2
      · have h2 : (hd.1 == k2) = true := beq_iff_eq.mpr hq
        unfold dict_lookup
        rw [List.find?_cons_of_pos _ (by simp [h2]),
          List.find?_cons_of_pos _ (by simp [h2])]
      · have h2 : (hd.1 == k2) = false := beq_eq_false_iff_ne.mpr hq
        unfold dict_lookup
        rw [List.find?_cons_of_neg _ (by simp [h2]),
          List.find?_cons_of_neg _ (by simp [h2])]
        exact ih

/-- Amended C2: assigning an episode under an existing key overwrites
the previous entry in place and never fails: afterwards the key maps to
the new episode, the catalog has the same length and the same keys in
the same order, and every other key's entry is unchanged.  The catalog
never holds two entries with one key, but a second insert for the same
slot is an overwrite, not a DuplicateKey rejection. -/
theorem dict_set_existing (cat : Catalog) (k : String) (v : Episode)
    (hmem : cat.any (fun kv => kv.1 == k) = true) :
    dict_lookup (dict_set cat k v) k = some v
    ∧ (dict_set cat k v).length = cat.length
    ∧ (dict_set cat k v).map Prod.fst = cat.map Prod.fst
    ∧ ∀ k2, k2 ≠ k → dict_lookup (dict_set cat k v) k2 = dict_lookup cat k2 := by
  rw [dict_set, if_pos hmem]
  exact ⟨dict_lookup_map_set cat k v hmem, by simp, dict_set_keys_map cat k v,
    fun k2 hk2 => dict_lookup_map_other cat k v k2 hk2⟩

/-- Witness for the amended C2 on a concrete one-entry catalog. -/
theorem dict_set_existing_witness :
    dict_lookup
        (dict_set [("k", ⟨["f1.mp3"], "T1", some "2025-01-01T00:00:00", none, none, none⟩)]
          "k" ⟨["f2.mp3"], "T2", some "2025-01-01T01:00:00", none, none, none⟩) "k"
      = some ⟨["f2.mp3"], "T2", some "2025-01-01T01:00:00", none, none, none⟩ :=
  (dict_set_existing
    [("k", ⟨["f1.mp3"], "T1", some "2025-01-01T00:00:00", none, none, none⟩)]
    "k" ⟨["f2.mp3"], "T2", some "2025-01-01T01:00:00", none, none, none⟩
    (by decide)).1

/-- Counterexample to C2 as stated: inserting under an existing key does
not leave the catalog unchanged (and raises no DuplicateKey); it
replaces the stored episode. -/
theorem dict_set_counterexample :
    dict_set [("k", ⟨["f1.mp3"], "T1", some "2025-01-01T00:00:00", none, none, none⟩)]
        "k" ⟨["f2.mp3"], "T2", some "2025-01-01T01:00:00", none, none, none⟩
      ≠ [("k", ⟨["f1.mp3"], "T1", some "2025-01-01T00:00:00", none, none, none⟩)]
    ∧ dict_set [("k", ⟨["f1.mp3"], "T1", some "2025-01-01T00:00:00", none, none, none⟩)]
        "k" ⟨["f2.mp3"], "T2", some "2025-01-01T01:00:00", none, none, none⟩
      = [("k", ⟨["f2.mp3"], "T2", some "2025-01-01T01:00:00", none, none, none⟩)] := by
  constructor
  · decide
  · decide

/-- Model of Python str.startswith for the folder test implied by
os.listdir(MP3_FOLDER): a file is listed when its path lives directly
under the folder. -/
def is_in_mp3_folder (p : String) : Bool :=
  (MP3_FOLDER ++ "/").data.isPrefixOf p.data

/-- Model of Python str.endswith. -/
def py_endswith (s suffix2 : String) : Bool :=
  suffix2.data.isSuffixOf s.data

/-- The condition under which cleanup_old_episodes deletes a file: it is
an .mp3 file inside MP3_FOLDER whose modification time is strictly below
the threshold. -/
def doomed_file (threshold : Int) (f : FSFile) : Bool :=
  is_in_mp3_folder f.path && py_endswith f.path ".mp3" && decide (f.mtime < threshold)

/-- Model of cleanup_old_episodes: removes every .mp3 file in MP3_FOLDER
whose modification time is older than now minus the retention window,
and returns the new filesystem together with the removed paths. -/
def cleanup_old_episodes (fs : FS) (now : Int) (retention_days : Int) :
    FS × List String :=
  let threshold := now - retention_days * 86400
  (fs.filter (fun f => !(doomed_file threshold f)),
   (fs.filter (doomed_file threshold)).map FSFile.path)

/-- The condition under which cleanup_downloaded_metadata keeps an
entry: its pubDate_iso is present, nonempty, parses, and its timestamp
is at least the threshold. -/
def keep_episode (parseIso : String → Option Int) (threshold : Int)
    (ep : Episode) : Bool :=
  match ep.pubDate_iso with
  | none => false
  | some iso =>
    if iso = "" then false
    else
      match parseIso iso with
      | none => false
      | some t => decide (threshold ≤ t)

/-- Model of cleanup_downloaded_metadata: rebuilds the catalog keeping
exactly the entries whose parsed publish timestamp is at least now
minus the retention window; entries with missing, empty, or unparseable
pubDate_iso are dropped.  parseIso models
datetime.fromisoformat(iso).timestamp(). -/
def cleanup_downloaded_metadata (parseIso : String → Option Int) (now : Int)
    (downloaded : Catalog) (retention_days : Int) : Catalog :=
  downloaded.filter (fun kv => keep_episode parseIso (now - retention_days * 86400) kv.2)

/-- keep_episode holds exactly on parseable timestamps at or above the
threshold. -/
theorem keep_episode_iff (parseIso : String → Option Int) (threshold : Int)
    (ep : Episode) :
    keep_episode parseIso threshold ep = true ↔
      ∃ iso t, ep.pubDate_iso = some iso ∧ iso ≠ "" ∧ parseIso iso = some t ∧
        threshold ≤ t := by
  cases h : ep.pubDate_iso with
  | none => simp [keep_episode, h]
  | some iso =>
    by_cases hiso : iso = ""
    · simp [keep_episode, h, hiso]
    · cases hp : parseIso iso with
      | none => simp [keep_episode, h, hiso, hp]
      | some t =>
        simp only [keep_episode, h, if_neg hiso, hp, decide_eq_true_eq]
        constructor
        · intro ht
          exact ⟨iso, t, rfl, hiso, hp, ht⟩
        · rintro ⟨iso2, t2, he, _, hp2, ht2⟩
          cases he
          rw [hp] at hp2
          cases hp2
          exact ht2

/-- Amended C3: metadata eviction removes exactly the entries whose
parsed publishInstant is strictly older than clockNow minus 21 days,
plus every entry whose publishInstant is missing, empty or unparseable;
an entry at or above the boundary (one second younger) is retained, one
strictly below (one second older) is evicted.  File deletion is
independent of the catalog: cleanup_old_episodes removes exactly the
.mp3 files in the episodes folder whose modification time is older than
the same threshold, regardless of which episodes reference them. -/
theorem cleanup_characterization (parseIso : String → Option Int) (now : Int)
    (downloaded : Catalog) (fs : FS) :
    (∀ kv : String × Episode,
      kv ∈ cleanup_downloaded_metadata parseIso now downloaded 21 ↔
        kv ∈ downloaded ∧ ∃ iso t, kv.2.pubDate_iso = some iso ∧ iso ≠ "" ∧
          parseIso iso = some t ∧ now - 21 * 86400 ≤ t)
    ∧ (∀ f : FSFile, f ∈ (cleanup_old_episodes fs now 21).1 ↔
        f ∈ fs ∧ ¬(is_in_mp3_folder f.path = true ∧ py_endswith f.path ".mp3" = true ∧
          f.mtime < now - 21 * 86400)) := by
  constructor
  · intro kv
    rw [cleanup_downloaded_metadata, List.mem_filter, keep_episode_iff]
  · intro f
    simp only [cleanup_old_episodes]
    rw [List.mem_filter]
    constructor
    · rintro ⟨hf, hd⟩
      refine ⟨hf, ?_⟩
      rintro ⟨h1, h2, h3⟩
      have hdoom : doomed_file (now - 21 * 86400) f = true := by
        unfold doomed_file
        rw [h1, h2]
        simpa using h3
      rw [hdoom] at hd
      simp at hd
    · rintro ⟨hf, hd⟩
      refine ⟨hf, ?_⟩
      cases hdf : doomed_file (now - 21 * 86400) f with
      | false => simp
      | true =>
        exfalso
        simp only [doomed_file, Bool.and_eq_true, decide_eq_true_eq] at hdf
        exact hd ⟨hdf.1.1, hdf.1.2, hdf.2⟩

/-- Witness for the amended C3: an entry exactly at the retention
boundary is retained. -/
theorem cleanup_characterization_witness :
    ("k", (⟨["episodes_mp3/f.mp3"], "T", some "d", none, none, none⟩ : Episode)) ∈
      cleanup_downloaded_metadata (fun _ => some (21 * 86400)) (2 * (21 * 86400))
        [("k", ⟨["episodes_mp3/f.mp3"], "T", some "d", none, none, none⟩)] 21 :=
  ((cleanup_characterization (fun _ => some (21 * 86400)) (2 * (21 * 86400))
      [("k", ⟨["episodes_mp3/f.mp3"], "T", some "d", none, none, none⟩)] []).1
    ("k", ⟨["episodes_mp3/f.mp3"], "T", some "d", none, none, none⟩)).mpr
    ⟨by simp, "d", 21 * 86400, rfl, by decide, rfl, by omega⟩

/-- Counterexample to C3 as stated: an episode 1 second past the
21-day boundary is evicted from the metadata, yet its referenced audio
file survives cleanup because file deletion goes by modification time,
not by evicted references (here the file was touched recently). -/
theorem cleanup_counterexample :
    cleanup_downloaded_metadata (fun s => if s = "old" then some 0 else none)
        (21 * 86400 + 1)
        [("k", ⟨["episodes_mp3/f.mp3"], "T", some "old", none, none, none⟩)] 21 = []
    ∧ (cleanup_old_episodes [⟨"episodes_mp3/f.mp3", 10, 21 * 86400⟩]
        (21 * 86400 + 1) 21).1 = [⟨"episodes_mp3/f.mp3", 10, 21 * 86400⟩] := by
  constructor
  · decide
  · decide

/-- Model of load_downloaded: the persisted state is the optional
content of TRACK_FILE (absent or a string); decode models json.load,
returning none on a JSONDecodeError.  Missing or undecodable state
yields the empty catalog. -/
def load_downloaded (decode : String → Option Catalog)
    (store : Option String) : Catalog :=
  match store with
  | none => []
  | some s =>
    match decode s with
    | none => []
    | some d => d

/-- C9: loading returns the empty catalog when no state file exists or
when its content is unparseable, and the parsed catalog otherwise. -/
theorem load_downloaded_spec (decode : String → Option Catalog)
    (store : Option String) :
    (store = none → load_downloaded decode store = [])
    ∧ (∀ s, store = some s → decode s = none → load_downloaded decode store = [])
    ∧ (∀ s c, store = some s → decode s = some c → load_downloaded decode store = c) := by
  refine ⟨?_, ?_, ?_⟩
  · rintro rfl
    rfl
  · rintro s rfl h
    simp [load_downloaded, h]
  · rintro s c rfl h
    simp [load_downloaded, h]

/-- Witness for C9: a concrete corrupt store loads as empty. -/
theorem load_downloaded_spec_witness :
    load_downloaded (fun _ => none) (some "garbage") = [] :=
  (load_downloaded_spec (fun _ => none) (some "garbage")).2.1 "garbage" rfl rfl

/-- Model of save_downloaded as the sequence of observable contents of
TRACK_FILE: the state before the call, then the truncated file produced
by open(TRACK_FILE, "w"), then the fully written serialization produced
by json.dump.  encode models json.dump with indent=2.  There is no
temporary file: the target itself passes through the truncated state. -/
def save_downloaded_states (encode : Catalog → String) (prev : Option String)
    (downloaded : Catalog) : List (Option String) :=
  [prev, some "", some (encode downloaded)]

/-- Amended C6: save_downloaded writes the full catalog in place, not
via a temporary file: the final observable state is the complete
serialization, but an intermediate observable state is the truncated
(empty) file, which a concurrent reader can see. -/
theorem save_downloaded_not_atomic (encode : Catalog → String)
    (prev : Option String) (downloaded : Catalog) :
    (save_downloaded_states encode prev downloaded).getLast?
        = some (some (encode downloaded))
    ∧ some "" ∈ save_downloaded_states encode prev downloaded := by
  constructor
  · rfl
  · simp [save_downloaded_states]

/-- Counterexample to C6 as stated: with the previous content "A" and a
serializer writing "B", the truncated state (an empty file) is visible
in the write sequence and differs from both the old and the new full
catalog contents. -/
theorem save_downloaded_counterexample :
    some "" ∈ save_downloaded_states (fun _ => "B") (some "A") []
    ∧ ("" : String) ≠ "B"
    ∧ ("" : String) ≠ "A" := by
  refine ⟨by simp [save_downloaded_states], by decide, by decide⟩

/-- One feed item as emitted by build_rss: the title, description,
publish instant (the timestamp that rfc2822 serializes), author,
explicit flag, image reference, and the enclosure data. -/
structure RssItem where
  title : String
  description : String
  pubDate : Int
  author : String
  explicit : String
  image : String
  enclosure_url : String
  enclosure_length : Nat
  enclosure_type : String
  guid : String
deriving DecidableEq

/-- The feed document: the channel block plus the item list. -/
structure RssChannel where
  title : String
  link : String
  description : String
  language : String
  author : String
  explicit : String
  image : String
  category : String
  items : List RssItem
deriving DecidableEq

/-- The sort key used by build_rss: kv[1].get("pubDate_iso", ""). -/
def sort_key (kv : String × Episode) : String :=
  kv.2.pubDate_iso.getD ""

/-- Stable descending insertion by sort_key: the new element goes in
front of the first entry whose key is not larger, so earlier entries
win ties.  Models Python sorted(..., reverse=True), a stable sort. -/
def insert_desc (x : String × Episode) : Catalog → Catalog
  | [] => [x]
  | y :: ys => if sort_key x < sort_key y then y :: insert_desc x ys else x :: y :: ys

/-- Model of sorted(downloaded.items(), key=..., reverse=True). -/
def sorted_desc (l : Catalog) : Catalog :=
  l.foldr insert_desc []

/-- The publish instant build_rss uses for an episode:
datetime.fromisoformat(pub_iso) if pub_iso else datetime.now(), with any
parse error also falling back to now. -/
def episode_pub_dt (parseIso : String → Option Int) (now : Int) (ep : Episode) : Int :=
  match ep.pubDate_iso with
  | none => now
  | some iso => if iso = "" then now else (parseIso iso).getD now

/-- The feed items build_rss emits for one episode: one item per mp3
part in list order; with more than one part the title gains the 1-based
" – Part i" suffix; the enclosure url and guid are BASE_URL plus the
part path and the enclosure length is the part file's current size on
disk (0 when missing). -/
def episode_items (parseIso : String → Option Int) (fs : FS) (now : Int)
    (kv : String × Episode) : List RssItem :=
  kv.2.mp3_files.enum.map (fun ip =>
    { title :=
        if kv.2.mp3_files.length > 1 then
          kv.2.title ++ " – Part " ++ natRepr (ip.1 + 1)
        else kv.2.title
      description := kv.2.description_html.getD ""
      pubDate := episode_pub_dt parseIso now kv.2
      author := kv.2.author.getD HOST_NAME
      explicit := EXPLICIT
      image := kv.2.episode_image.getD CHANNEL_IMAGE
      enclosure_url := BASE_URL ++ ip.2
      enclosure_length := fs_getsize fs ip.2
      enclosure_type := "audio/mpeg"
      guid := BASE_URL ++ ip.2 })

/-- Model of build_rss: the static channel block plus, for every
episode sorted by pubDate_iso descending, its per-part items. -/
def build_rss (parseIso : String → Option Int) (fs : FS) (now : Int)
    (downloaded : Catalog) : RssChannel :=
  { title := "Automated KTAL Shows – DJ Tone Deaf"
    link := BASE_URL
    description := "Automated recordings of KTAL shows (Wolfman Max, The Smear Campaign, Johnny Catalog, Brain Salad, Lost Highway, Soul Salad) with best-effort metadata."
    language := LANG
    author := HOST_NAME
    explicit := EXPLICIT
    image := CHANNEL_IMAGE
    category := CATEGORY
    items := (sorted_desc downloaded).flatMap (episode_items parseIso fs now) }

/-- Descending insertion permutes pushing the new element to the front. -/
theorem insert_desc_perm (x : String × Episode) (l : Catalog) :
    (insert_desc x l).Perm (x :: l) := by
  induction l with
  | nil => exact List.Perm.refl _
  | cons y ys ih =>
    unfold insert_desc
    split
    · exact ((ih.cons y).trans (List.Perm.swap x y ys))
    · exact List.Perm.refl _

/-- The stable descending sort is a permutation of its input. -/
theorem sorted_desc_perm (l : Catalog) : (sorted_desc l).Perm l := by
  induction l with
  | nil => exact List.Perm.refl _
  | cons x t ih =>
    exact (insert_desc_perm x (sorted_desc t)).trans (ih.cons x)

/-- Descending insertion preserves the descending-key invariant. -/
theorem insert_desc_pairwise (x : String × Episode) (l : Catalog)
    (h : l.Pairwise (fun a b => sort_key b ≤ sort_key a)) :
    (insert_desc x l).Pairwise (fun a b => sort_key b ≤ sort_key a) := by
  induction l with
  | nil => simp [insert_desc]
  | cons y ys ih =>
    rw [List.pairwise_cons] at h
    unfold insert_desc
    split
    · rename_i hlt
      rw [List.pairwise_cons]
      refine ⟨?_, ih h.2⟩
      intro z hz
      rcases List.mem_cons.mp ((insert_desc_perm x ys).mem_iff.mp hz) with rfl | hz2
      · exact le_of_lt hlt
      · exact h.1 z hz2
    · rename_i hge
      rw [List.pairwise_cons]
      refine ⟨?_, List.pairwise_cons.mpr h⟩
      intro z hz
      rcases List.mem_cons.mp hz with rfl | hz2
      · exact le_of_not_lt hge
      · exact le_trans (h.1 z hz2) (le_of_not_lt hge)

/-- The sorted catalog is descending in sort_key. -/
theorem sorted_desc_pairwise (l : Catalog) :
    (sorted_desc l).Pairwise (fun a b => sort_key b ≤ sort_key a) := by
  induction l with
  | nil => simp [sorted_desc]
  | cons x t ih => exact insert_desc_pairwise x (sorted_desc t) ih

/-- C7: the feed's item list is the per-episode item blocks in
descending pubDate_iso order (a permutation of the catalog, descending
in the sort key); each episode contributes exactly one item per part,
in part order, the i-th item referencing the i-th part file, titled
with the 1-based " – Part i" suffix exactly when the episode has more
than one part. -/
theorem build_rss_items_structure (parseIso : String → Option Int) (fs : FS)
    (now : Int) (downloaded : Catalog) :
    (build_rss parseIso fs now downloaded).items
        = (sorted_desc downloaded).flatMap (episode_items parseIso fs now)
    ∧ (sorted_desc downloaded).Perm downloaded
    ∧ (sorted_desc downloaded).Pairwise (fun a b => sort_key b ≤ sort_key a)
    ∧ (∀ kv : String × Episode,
        (episode_items parseIso fs now kv).length = kv.2.mp3_files.length)
    ∧ (∀ (kv : String × Episode) (i : Nat) (fp : String),
        kv.2.mp3_files[i]? = some fp →
        (episode_items parseIso fs now kv)[i]? = some
          { title :=
              if kv.2.mp3_files.length > 1 then
                kv.2.title ++ " – Part " ++ natRepr (i + 1)
              else kv.2.title
            description := kv.2.description_html.getD ""
            pubDate := episode_pub_dt parseIso now kv.2
            author := kv.2.author.getD HOST_NAME
            explicit := EXPLICIT
            image := kv.2.episode_image.getD CHANNEL_IMAGE
            enclosure_url := BASE_URL ++ fp
            enclosure_length := fs_getsize fs fp
            enclosure_type := "audio/mpeg"
            guid := BASE_URL ++ fp }) := by
  refine ⟨rfl, sorted_desc_perm downloaded, sorted_desc_pairwise downloaded, ?_, ?_⟩
  · intro kv
    simp [episode_items]
  · intro kv i fp hfp
    simp only [episode_items, List.getElem?_map, List.getElem?_enum, hfp, Option.map_some]
    rfl

/-- Witness for C7: on a concrete two-part episode the second item
carries the " – Part 2" title and the second part's enclosure. -/
theorem build_rss_items_structure_witness :
    (episode_items (fun _ => some 7) [] 0
        ("k", ⟨["a.mp3", "b.mp3"], "T", some "2025", none, none, none⟩))[1]?
      = some
        { title := "T – Part 2"
          description := ""
          pubDate := 7
          author := HOST_NAME
          explicit := EXPLICIT
          image := CHANNEL_IMAGE
          enclosure_url := BASE_URL ++ "b.mp3"
          enclosure_length := 0
          enclosure_type := "audio/mpeg"
          guid := BASE_URL ++ "b.mp3" } := by
  rw [(build_rss_items_structure (fun _ => some 7) [] 0
    [("k", ⟨["a.mp3", "b.mp3"], "T", some "2025", none, none, none⟩)]).2.2.2.2
    ("k", ⟨["a.mp3", "b.mp3"], "T", some "2025", none, none, none⟩) 1 "b.mp3" rfl]
  decide

/-- flatMap respects pointwise equality of the block function on the
list's members. -/
theorem flatMap_congr_mem {α β : Type} (l : List α) (f g : α → List β)
    (h : ∀ x ∈ l, f x = g x) : l.flatMap f = l.flatMap g := by
  induction l with
  | nil => rfl
  | cons x t ih =>
    rw [List.flatMap_cons, List.flatMap_cons, h x (by simp), ih ?_]
    intro z hz
    exact h z (by simp [hz])

/-- When an episode's pubDate_iso parses, its publish instant does not
depend on the wall clock. -/
theorem episode_pub_dt_of_parse (parseIso : String → Option Int) (now : Int)
    (ep : Episode) (iso : String) (t : Int) (h1 : ep.pubDate_iso = some iso)
    (h2 : iso ≠ "") (h3 : parseIso iso = some t) :
    episode_pub_dt parseIso now ep = t := by
  simp [episode_pub_dt, h1, h2, h3]

/-- Amended C5: with the catalog, channel metadata and filesystem held
fixed, rendering is deterministic provided every episode's pubDate_iso
is present, nonempty and parseable: the synthesis wall clock does not
appear in the output.  (When some episode's pubDate_iso is missing or
unparseable, the wall clock is embedded as that entry's publish date,
and the enclosure lengths always come from the filesystem, so the feed
is not a function of catalog and channel metadata alone.) -/
theorem build_rss_deterministic (parseIso : String → Option Int) (fs : FS)
    (now1 now2 : Int) (downloaded : Catalog)
    (h : ∀ kv ∈ downloaded, ∃ iso t,
      (kv : String × Episode).2.pubDate_iso = some iso ∧ iso ≠ "" ∧
        parseIso iso = some t) :
    build_rss parseIso fs now1 downloaded = build_rss parseIso fs now2 downloaded := by
  unfold build_rss
  congr 1
  apply flatMap_congr_mem
  intro kv hkv
  obtain ⟨iso, t, h1, h2, h3⟩ := h kv ((sorted_desc_perm downloaded).mem_iff.mp hkv)
  unfold episode_items
  rw [episode_pub_dt_of_parse parseIso now1 kv.2 iso t h1 h2 h3,
    episode_pub_dt_of_parse parseIso now2 kv.2 iso t h1 h2 h3]

/-- Witness for the amended C5 on a concrete catalog with a parseable
publish date: two renderings at different wall clocks agree. -/
theorem build_rss_deterministic_witness :
    build_rss (fun _ => some 5) [] 0
        [("k", ⟨["f.mp3"], "T", some "x", none, none, none⟩)]
      = build_rss (fun _ => some 5) [] 99
        [("k", ⟨["f.mp3"], "T", some "x", none, none, none⟩)] :=
  build_rss_deterministic (fun _ => some 5) [] 0 99
    [("k", ⟨["f.mp3"], "T", some "x", none, none, none⟩)]
    (by
      intro kv hkv
      rw [List.mem_singleton] at hkv
      subst hkv
      exact ⟨"x", 5, rfl, by decide, rfl⟩)

/-- Counterexample to C5 as stated: with an episode whose pubDate_iso is
missing, two renderings at different wall clocks differ (the clock is
embedded as the item's publish date); and with identical catalog and
channel metadata but different on-disk part sizes the outputs also
differ (the enclosure length is read from the filesystem). -/
theorem build_rss_counterexample :
    build_rss (fun _ => none) [] 0
        [("k", ⟨["f.mp3"], "T", none, none, none, none⟩)]
      ≠ build_rss (fun _ => none) [] 1
        [("k", ⟨["f.mp3"], "T", none, none, none, none⟩)]
    ∧ build_rss (fun _ => none) [] 0
        [("k", ⟨["f.mp3"], "T", some "2025", none, none, none⟩)]
      ≠ build_rss (fun _ => none) [⟨"f.mp3", 5, 0⟩] 0
        [("k", ⟨["f.mp3"], "T", some "2025", none, none, none⟩)] := by
  constructor
  · decide
  · decide

/-- A Python datetime as the script uses it: calendar fields plus the
weekday (Monday = 0 .. Sunday = 6), which Python derives from the date
and which is carried here as a field of the instant. -/
structure PyDateTime where
  year : Int
  month : Nat
  day : Nat
  hour : Nat
  minute : Nat
  second : Nat
  microsecond : Nat
  weekday : Nat
deriving DecidableEq

/-- The schedule scan in main: the first show whose day equals today's
weekday and whose hour list contains the current hour (the loop breaks
at the first hit). -/
def find_active_show (shows : List ShowSlot) (today current_hour : Nat) :
    Option ShowSlot :=
  shows.find? (fun s => s.day == today && s.hours.contains current_hour)

/-- Alignment to the top of the hour:
now.replace(minute=0, second=0, microsecond=0). -/
def aligned_start (now : PyDateTime) : PyDateTime :=
  { now with minute := 0, second := 0, microsecond := 0 }

/-- The schedule evaluation step of main: nothing when no slot matches,
otherwise the matched show's name and the aligned start instant. -/
def evaluate (shows : List ShowSlot) (now : PyDateTime) :
    Option (String × PyDateTime) :=
  match find_active_show shows now.weekday now.hour with
  | none => none
  | some s => some (s.name, aligned_start now)

/-- A successful find? splits its list at the first satisfying element. -/
theorem find?_eq_some_split {α : Type} (p : α → Bool) (l : List α) (a : α)
    (h : l.find? p = some a) :
    ∃ l1 l2, l = l1 ++ a :: l2 ∧ p a = true ∧ ∀ x ∈ l1, p x = false := by
  induction l with
  | nil => simp at h
  | cons x t ih =>
    by_cases hx : p x = true
    · rw [List.find?_cons_of_pos _ hx] at h
      cases h
      exact ⟨[], t, rfl, hx, by simp⟩
    · rw [List.find?_cons_of_neg _ (by simpa using hx)] at h
      obtain ⟨l1, l2, rfl, hpa, hl1⟩ := ih h
      refine ⟨x :: l1, l2, rfl, hpa, ?_⟩
      intro z hz
      rcases List.mem_cons.mp hz with rfl | hz2
      · simpa using hx
      · exact hl1 z hz2

/-- C8: schedule evaluation returns none exactly when no slot matches
the instant's weekday and hour; otherwise it returns the name of the
first matching slot in declaration order together with the instant
truncated to the top of the hour (minutes, seconds and sub-seconds
zeroed). -/
theorem evaluate_spec (shows : List ShowSlot) (now : PyDateTime) :
    (evaluate shows now = none ↔
      ∀ s ∈ shows, ¬(s.day = now.weekday ∧ now.hour ∈ s.hours))
    ∧ (∀ name st, evaluate shows now = some (name, st) →
        st = aligned_start now ∧ st.minute = 0 ∧ st.second = 0 ∧
          st.microsecond = 0 ∧ st.hour = now.hour ∧ st.year = now.year ∧
          st.month = now.month ∧ st.day = now.day ∧
        ∃ l1 s l2, shows = l1 ++ s :: l2 ∧ s.name = name ∧
          s.day = now.weekday ∧ now.hour ∈ s.hours ∧
          ∀ u ∈ l1, ¬(u.day = now.weekday ∧ now.hour ∈ u.hours)) := by
  constructor
  · have hiff : evaluate shows now = none ↔
        find_active_show shows now.weekday now.hour = none := by
      unfold evaluate
      cases find_active_show shows now.weekday now.hour <;> simp
    rw [hiff, find_active_show, List.find?_eq_none]
    constructor
    · intro h s hs hc
      refine h s hs ?_
      simp [hc.1, hc.2]
    · intro h s hs hc
      simp only [Bool.and_eq_true, beq_iff_eq] at hc
      have hmem : now.hour ∈ s.hours := List.elem_iff.mp hc.2
      exact h s hs ⟨hc.1, hmem⟩
  · intro name st hev
    unfold evaluate at hev
    cases hf : find_active_show shows now.weekday now.hour with
    | none => rw [hf] at hev; simp at hev
    | some s0 =>
      rw [hf] at hev
      simp only [Option.some.injEq, Prod.mk.injEq] at hev
      obtain ⟨hname, hst⟩ := hev
      subst hst
      refine ⟨rfl, rfl, rfl, rfl, rfl, rfl, rfl, rfl, ?_⟩
      unfold find_active_show at hf
      obtain ⟨l1, l2, heq, hpa, hl1⟩ := find?_eq_some_split _ shows s0 hf
      simp only [Bool.and_eq_true, beq_iff_eq] at hpa
      refine ⟨l1, s0, l2, heq, hname, hpa.1, List.elem_iff.mp hpa.2, ?_⟩
      intro u hu hcon
      have := hl1 u hu
      simp [hcon.1] at this
      exact this hcon.2

/-- Witness for C8: Saturday 19:07 matches The Smear Campaign and the
aligned start zeroes the minutes, seconds and microseconds. -/
theorem evaluate_spec_witness :
    evaluate SHOWS ⟨2025, 10, 11, 19, 7, 30, 123, 5⟩
      = some ("The Smear Campaign", ⟨2025, 10, 11, 19, 0, 0, 0, 5⟩)
    ∧ (⟨2025, 10, 11, 19, 0, 0, 0, 5⟩ : PyDateTime).minute = 0 := by
  refine ⟨by decide, ?_⟩
  exact ((evaluate_spec SHOWS ⟨2025, 10, 11, 19, 7, 30, 123, 5⟩).2
    "The Smear Campaign" ⟨2025, 10, 11, 19, 0, 0, 0, 5⟩ (by decide)).2.1

end RRS
